import Mathlib

/-!
Shallow embedding of the twitch-box playback-navigation engine.

The repository contains two generations of the same engine:
* the `providers` package: the Twitch stream provider (`FindStreamForCommand`,
  `findIndexForStreamer`, `getCurrentStreamUserID`, `removeCurrentStream`,
  `SaveUsersCurrentStream`, `GetStream`) and the Mixer stream provider
  (`MixerClient.Next/Resume/Previous`, `saveRecentStream`, `removeRecentStream`,
  `findBestVariant`, `FindStreamWithChannel`);
* the older `twitch` package, whose `FindStreamForCommand` reports failures by
  writing speech into the Echo response and still returns a stream.

The per-user Redis recency list is modelled as a Lean list, head first
(index 0 of the Redis list, the target of `LPUSH`/`LPOP`/`LINDEX 0`).
Redis `LREM key 0 v` removes every occurrence of `v`, hence `List.filter`.
Go slice indexing is modelled by `getAt`, which yields `oob` (a run-time
panic in Go) when the index is out of range.  A Go function returning
`(*T, error)` is modelled by `GoResult`.
-/

namespace TwitchBox

/-- The `TwitchStream` struct carries the fields of the Go struct that the navigation
logic reads: the stream id, the broadcaster user id used for matching, and
the title (display-only fields are dropped). -/
structure TwitchStream where
  id : String
  userID : String
  title : String
  deriving DecidableEq, Repr

/-- The `PlaybackCommand` enumeration of the source. -/
inductive PlaybackCommand where
  | PLAY
  | RESUME
  | PAUSE
  | PREVIOUS
  | NEXT
  | STOP
  deriving DecidableEq, Repr

/-- Outcome of a Go call returning `(*T, error)`: a stream with nil error,
a nil stream with an error message, or a run-time panic caused by an
out-of-range slice index. -/
inductive GoResult (α : Type) where
  | ok (a : α)
  | err (msg : String)
  | oob
  deriving DecidableEq, Repr

/-- Go slice indexing `liveStreams[i]` with an `int` index: the element when
`0 ≤ i < len`, otherwise a panic (`oob`). -/
def getAt (live : List TwitchStream) (i : Int) : GoResult TwitchStream :=
  if h : 0 ≤ i ∧ i.toNat < live.length then .ok (live.get ⟨i.toNat, h.2⟩)
  else .oob

/-- The loop body of `findIndexForStreamer`: walk the slice keeping the index
of the most recent match in `needle` (`i` is the index of the first element of
the remaining list). -/
def findIndexAux (uid : String) : List TwitchStream → Nat → Int → Int
  | [], _, needle => needle
  | s :: rest, i, needle =>
      findIndexAux uid rest (i + 1) (if s.userID = uid then (i : Int) else needle)

/-- The `findIndexForStreamer` helper returns the index in the live-stream slice for the
given user id, `-1` if absent; the last matching index wins. -/
def findIndexForStreamer (uid : String) (haystack : List TwitchStream) : Int :=
  findIndexAux uid haystack 0 (-1)

/-- The `getCurrentStreamUserID` read: `LINDEX list 0`; the Go zero value `""` stands
for a missing/expired list. -/
def getCurrentStreamUserID (hist : List String) : String :=
  match hist with
  | [] => ""
  | h :: _ => h

/-- The `removeCurrentStream` primitive: `LPOP` then `LINDEX 0`; returns the newly exposed
head (or `""`) together with the list state after the pop. -/
def removeCurrentStream (hist : List String) : String × List String :=
  match hist with
  | [] => ("", [])
  | _ :: rest =>
    match rest with
    | [] => ("", [])
    | h :: _ => (h, rest)

/-- The `SaveUsersCurrentStream` list effect: `LREM` all occurrences of the id,
then `LPUSH` it. -/
def SaveUsersCurrentStream (hist : List String) (streamUserID : String) : List String :=
  streamUserID :: hist.filter (fun c => c ≠ streamUserID)

/-- Seconds written by the `EXPIRE` command in the push transaction:
`int((time.Hour * time.Duration(24)).Seconds())`. -/
def expireSeconds : Nat := 60 * 60 * 24

/-- A Redis list together with its remaining time-to-live in seconds. -/
structure RedisEntry (α : Type) where
  items : List α
  ttl : Nat
  deriving DecidableEq, Repr

/-- The `SaveUsersCurrentStream` push on the whole Redis entry: the
`LREM`/`LPUSH`/`EXPIRE` transaction. -/
def SaveUsersCurrentStreamEntry (entry : RedisEntry String) (streamUserID : String) :
    RedisEntry String :=
  { items := streamUserID :: entry.items.filter (fun c => c ≠ streamUserID)
    ttl := expireSeconds }

namespace Providers

/-- Error message returned by `FindStreamForCommand` when the current head is
not among the live streams. -/
def thatUserNotStreamingMsg : String :=
  "It looks like that user isn\x27t streaming right now. "

/-- Error message returned when the `PREVIOUS` loop exhausts the history. -/
def noPrevMsg : String :=
  "It looks like none of your previously listened streams are live right now"

/-- The `PREVIOUS` loop of the providers `FindStreamForCommand`: repeatedly
`removeCurrentStream` until the exposed head is live or the history is
exhausted.  Returns the command result and the history state left in Redis. -/
def previousLoop (live : List TwitchStream) :
    List String → GoResult TwitchStream × List String
  | [] => (.err noPrevMsg, [])
  | _ :: rest =>
    match rest with
    | [] => (.err noPrevMsg, [])
    | prevUID :: _ =>
      let currentStreamIndex := findIndexForStreamer prevUID live
      if currentStreamIndex ≠ -1 then (getAt live currentStreamIndex, rest)
      else previousLoop live rest

/-- The providers-package `FindStreamForCommand` (Twitch): selects the stream
for the command given the history list and the live streams; also returns the
history state after the call (only `PREVIOUS` mutates it). -/
def FindStreamForCommand (hist : List String) (live : List TwitchStream)
    (command : PlaybackCommand) : GoResult TwitchStream × List String :=
  match command with
  | .PLAY => (getAt live 0, hist)
  | .RESUME | .NEXT =>
    let streamerUserID := getCurrentStreamUserID hist
    if streamerUserID ≠ "" then
      let currentStreamIndex := findIndexForStreamer streamerUserID live
      if currentStreamIndex ≠ -1 then
        if command = .NEXT then
          if currentStreamIndex ≤ (live.length : Int) - 2 then
            (getAt live (currentStreamIndex + 1), hist)
          else (getAt live 0, hist)
        else (getAt live currentStreamIndex, hist)
      else (.err thatUserNotStreamingMsg, hist)
    else (getAt live 0, hist)
  | .PREVIOUS => previousLoop live hist
  | .PAUSE | .STOP => (getAt live 0, hist)

end Providers

namespace TwitchPkg

/-- The older twitch-package `PREVIOUS` loop: on exhaustion it only records
the speech and falls through to return `liveStreams[0]`. -/
def previousLoop (live : List TwitchStream) :
    List String → (GoResult TwitchStream × Option String) × List String
  | [] => ((getAt live 0, some Providers.noPrevMsg), [])
  | _ :: rest =>
    match rest with
    | [] => ((getAt live 0, some Providers.noPrevMsg), [])
    | prevUID :: _ =>
      let currentStreamIndex := findIndexForStreamer prevUID live
      if currentStreamIndex ≠ -1 then ((getAt live currentStreamIndex, none), rest)
      else previousLoop live rest

/-- The older twitch-package `FindStreamForCommand`: it cannot fail; error
conditions only write speech (second component) into the Echo response and the
function still returns `liveStreams[index]` with `index = 0`. -/
def FindStreamForCommand (hist : List String) (live : List TwitchStream)
    (command : PlaybackCommand) :
    (GoResult TwitchStream × Option String) × List String :=
  match command with
  | .PLAY => ((getAt live 0, none), hist)
  | .RESUME | .NEXT =>
    let streamerUserID := getCurrentStreamUserID hist
    if streamerUserID ≠ "" then
      let currentStreamIndex := findIndexForStreamer streamerUserID live
      if currentStreamIndex ≠ -1 then
        if command = .NEXT then
          if currentStreamIndex ≤ (live.length : Int) - 2 then
            ((getAt live (currentStreamIndex + 1), none), hist)
          else ((getAt live 0, none), hist)
        else ((getAt live currentStreamIndex, none), hist)
      else ((getAt live 0, some Providers.thatUserNotStreamingMsg), hist)
    else ((getAt live 0, none), hist)
  | .PREVIOUS => previousLoop live hist
  | .PAUSE | .STOP => ((getAt live 0, none), hist)

end TwitchPkg

/-- The `MixerChannel` struct carries the fields the Mixer navigation logic reads. -/
structure MixerChannel where
  id : Nat
  online : Bool
  userID : Nat
  title : String
  name : String
  deriving DecidableEq, Repr

/-- The `removeRecentStream` primitive: `LREM list 0 channelID`, removing every occurrence. -/
def removeRecentStream (hist : List Nat) (channelID : Nat) : List Nat :=
  hist.filter (fun c => c ≠ channelID)

/-- The `saveRecentStream` list effect: `LREM` all occurrences of the channel id,
then `LPUSH` it. -/
def saveRecentStream (hist : List Nat) (channelID : Nat) : List Nat :=
  channelID :: hist.filter (fun c => c ≠ channelID)

/-- The `saveRecentStream` push on the whole Redis entry: the
`LREM`/`LPUSH`/`EXPIRE` transaction. -/
def saveRecentStreamEntry (entry : RedisEntry Nat) (channelID : Nat) :
    RedisEntry Nat :=
  { items := channelID :: entry.items.filter (fun c => c ≠ channelID)
    ttl := expireSeconds }

/-- Result of a Mixer navigation call: the Go return value (`(*Stream, error)`,
with the selected channel standing in for the built stream) together with the
history list left in Redis. -/
structure MixerOut where
  result : Except String (Option MixerChannel)
  hist : List Nat
  deriving Repr

namespace MixerClient

/-- The scan loop of `MixerClient.Resume`: take the most recent channel id,
look it up among the followed online channels (first match), and remove the id
from Redis whether or not it was found; stop at the first hit. -/
def resumeScan (follows : List MixerChannel) :
    List Nat → List Nat → Option MixerChannel × List Nat
  | [], hist => (none, hist)
  | cid :: rest, hist =>
    match follows.find? (fun ch => ch.id == cid) with
    | some ch => (some ch, removeRecentStream hist cid)
    | none => resumeScan follows rest (removeRecentStream hist cid)

/-- The method `MixerClient.Resume`, up to the external variant fetch (the HLS manifest
request is an external collaborator whose error return the source ignores
here).  Mirrors the source faithfully, including its final `return nil, nil`
on the success path: the selected channel is pushed to the history but the
returned stream is nil with a nil error. -/
def Resume (follows : List MixerChannel) (hist : List Nat) : MixerOut :=
  match hist with
  | [] => ⟨.error "You have no recently listened streams to resume", hist⟩
  | _ :: _ =>
    match resumeScan follows hist hist with
    | (some ch, hist2) => ⟨.ok none, saveRecentStream hist2 ch.id⟩
    | (none, hist2) => ⟨.error "None of your recent streams are still live", hist2⟩

/-- The scan loop of `MixerClient.Previous` over the remaining recent ids:
channels that fail to load or are offline are pruned from Redis; the first
online channel is the target. -/
def previousScan (fetch : Nat → Option MixerChannel) :
    List Nat → List Nat → Option MixerChannel × List Nat
  | [], hist => (none, hist)
  | cid :: rest, hist =>
    match fetch cid with
    | some ch =>
      if ch.online then (some ch, hist)
      else previousScan fetch rest (removeRecentStream hist cid)
    | none => previousScan fetch rest (removeRecentStream hist cid)

/-- The method `MixerClient.Previous`, up to the external variant fetch.  `fetch` models
`FindChannelByID` (`none` covers both a request error and a nil channel).
A history of length at most one is rejected up front; otherwise the current
head is removed and the remaining ids are scanned for an online channel, which
is then pushed as the new head. -/
def Previous (fetch : Nat → Option MixerChannel) (hist : List Nat) : MixerOut :=
  match hist with
  | [] => ⟨.error "There are no recent streams to be played", hist⟩
  | [c] => ⟨.error "There are no recent streams to be played", [c]⟩
  | h :: rest =>
    let hist1 := removeRecentStream (h :: rest) h
    match previousScan fetch rest hist1 with
    | (some ch, hist2) => ⟨.ok (some ch), saveRecentStream hist2 ch.id⟩
    | (none, hist2) => ⟨.error "There are no recent streams to be played", hist2⟩

/-- The scan loop of `MixerClient.Next` over the ID-sorted channel list
(`sorted`, the whole list, is also the slice that is indexed): whenever the
element at position `i` matches the current head — the loop has no `break`, so
the last match wins — the candidate becomes the element at `i + 1`, or
`channels[0]` when `i` is the last position. -/
def nextScanAux (sorted : List MixerChannel) (current : Nat) :
    List MixerChannel → Nat → Option MixerChannel → Option MixerChannel
  | [], _, channel => channel
  | c :: rest, i, channel =>
    nextScanAux sorted current rest (i + 1)
      (if c.id = current then
        (match sorted.get? (i + 1) with
          | some ch2 => some ch2
          | none => sorted.head?)
      else channel)

/-- The method `MixerClient.Next`, up to the external variant fetch (whose
error the source ignores).  The followed online channels are first sorted
ascending by channel ID (`sort.Sort(AscendingChannelsIDs(channels))`; the Go
sort is in-place and its order among equal IDs is unspecified — the model
fixes it with a stable merge sort).  An empty channel list is an error; an
empty history selects `channels[0]`; otherwise the head is looked up in the
sorted list and the following element (wrapping to `channels[0]`) is chosen;
if the head matched nothing, `rand.Intn(len(channels))` picks a random
channel — modelled by the `randIdx` parameter taken modulo the length.  The
selected channel is pushed as the new history head and returned with a nil
error. -/
def Next (channels : List MixerChannel) (hist : List Nat) (randIdx : Nat) :
    MixerOut :=
  let sorted := channels.mergeSort (fun a b => a.id ≤ b.id)
  if hlen : sorted.length = 0 then ⟨.error "No online channels", hist⟩
  else
    let channel : Option MixerChannel :=
      match hist with
      | [] => sorted.head?
      | current :: _ => nextScanAux sorted current sorted 0 none
    match channel with
    | some ch => ⟨.ok (some ch), saveRecentStream hist ch.id⟩
    | none =>
      let ch := sorted.get
        ⟨randIdx % sorted.length, Nat.mod_lt _ (Nat.pos_of_ne_zero hlen)⟩
      ⟨.ok (some ch), saveRecentStream hist ch.id⟩

end MixerClient

/-- An HLS rendition: the quality label (`Video` attribute) and the playable
URI. -/
structure Variant where
  video : String
  uri : String
  deriving DecidableEq, Repr

/-- Go's `strings.HasPrefix s pre`, modelled structurally over the character
lists so that it evaluates inside the kernel. -/
def strStartsWith (s pre : String) : Bool :=
  pre.data.isPrefixOf s.data

/-- The selection loop shared by the Twitch `GetStream` and the Mixer
`findBestVariant`: remember the most recent `"audio_only"` rendition seen so
far and stop at the first rendition whose label has the requested quality as a
prefix.  Returns the prefix match (if any) and the audio-only accumulator at
the point the loop stopped. -/
def selectLoop (streamQuality : String) :
    List Variant → Option Variant → Option Variant × Option Variant
  | [], audioOnlyVariant => (none, audioOnlyVariant)
  | v :: rest, audioOnlyVariant =>
    let audioOnlyVariant2 :=
      if v.video = "audio_only" then some v else audioOnlyVariant
    if strStartsWith v.video streamQuality then (some v, audioOnlyVariant2)
    else selectLoop streamQuality rest audioOnlyVariant2

/-- The Mixer `findBestVariant`: nil on an empty playlist; otherwise the first
prefix match, else the audio-only fallback, else the last rendition. -/
def findBestVariant (variants : List Variant) (streamQuality : String) :
    Option Variant :=
  match variants with
  | [] => none
  | v :: vs =>
    match selectLoop streamQuality (v :: vs) none with
    | (some sv, _) => some sv
    | (none, some a) => some a
    | (none, none) => some ((v :: vs).getLast (List.cons_ne_nil v vs))

/-- The selection part of the Twitch `GetStream` (after the manifest has been
decoded): an empty playlist is a hard error, otherwise the same loop and
fallbacks as `findBestVariant`. -/
def GetStreamSelect (variants : List Variant) (streamQuality : String) :
    Except String Variant :=
  match variants with
  | [] => .error "Zero stream variants found"
  | v :: vs =>
    match selectLoop streamQuality (v :: vs) none with
    | (some sv, _) => .ok sv
    | (none, some a) => .ok a
    | (none, none) => .ok ((v :: vs).getLast (List.cons_ne_nil v vs))

/-- The tail of `MixerClient.FindStreamWithChannel`: whatever
`findBestVariant` yields (possibly nil) is returned with a nil error. -/
def FindStreamWithChannelSelect (variants : List Variant) (streamQuality : String) :
    Except String (Option Variant) :=
  .ok (findBestVariant variants streamQuality)

/-! ### Helper lemmas about slice indexing and `findIndexForStreamer` -/

lemma getAt_eq_ok (live : List TwitchStream) (i : Int) (h0 : 0 ≤ i)
    (hl : i.toNat < live.length) :
    getAt live i = .ok (live.get ⟨i.toNat, hl⟩) := by
  unfold getAt
  rw [dif_pos ⟨h0, hl⟩]

lemma getAt_ok_mem (live : List TwitchStream) (i : Int) (s : TwitchStream)
    (h : getAt live i = .ok s) : s ∈ live := by
  unfold getAt at h
  split at h
  · cases h
    exact List.get_mem _ _ _
  · cases h

lemma getAt_ne_oob (live : List TwitchStream) (i : Int) (h0 : 0 ≤ i)
    (hl : i.toNat < live.length) : getAt live i ≠ .oob := by
  rw [getAt_eq_ok live i h0 hl]
  intro hc
  cases hc

lemma getAt_zero_cons (s : TwitchStream) (rest : List TwitchStream) :
    getAt (s :: rest) 0 = .ok s := by
  have := getAt_eq_ok (s :: rest) 0 le_rfl (by simp)
  simpa using this

lemma findIndexAux_spec (uid : String) :
    ∀ (l : List TwitchStream) (i : Nat) (needle : Int),
      findIndexAux uid l i needle = needle ∨
      ∃ k : Nat, k < l.length ∧ findIndexAux uid l i needle = ((i + k : Nat) : Int) ∧
        ∃ s, l.get? k = some s ∧ s.userID = uid := by
  intro l
  induction l with
  | nil => intro i needle; exact .inl rfl
  | cons t rest ih =>
    intro i needle
    by_cases ht : t.userID = uid
    · have hstep : findIndexAux uid (t :: rest) i needle =
          findIndexAux uid rest (i + 1) i := by
        simp [findIndexAux, ht]
      rcases ih (i + 1) i with h | ⟨k, hk, heq, s, hget, hm⟩
      · right
        exact ⟨0, by simp, by rw [hstep, h]; simp, t, by simp, ht⟩
      · right
        refine ⟨k + 1, by simpa using hk, ?_, s, by simpa using hget, hm⟩
        rw [hstep, heq]
        congr 1
        omega
    · have hstep : findIndexAux uid (t :: rest) i needle =
          findIndexAux uid rest (i + 1) needle := by
        simp [findIndexAux, ht]
      rcases ih (i + 1) needle with h | ⟨k, hk, heq, s, hget, hm⟩
      · left
        rw [hstep, h]
      · right
        refine ⟨k + 1, by simpa using hk, ?_, s, by simpa using hget, hm⟩
        rw [hstep, heq]
        congr 1
        omega

lemma findIndexAux_ge (uid : String) :
    ∀ (l : List TwitchStream) (i : Nat) (needle : Int) (j : Nat) (s : TwitchStream),
      l.get? j = some s → s.userID = uid →
      ((i + j : Nat) : Int) ≤ findIndexAux uid l i needle := by
  intro l
  induction l with
  | nil =>
    intro i needle j s hget _
    simp at hget
  | cons t rest ih =>
    intro i needle j s hget hm
    cases j with
    | zero =>
      simp at hget
      have ht : t.userID = uid := hget ▸ hm
      have hstep : findIndexAux uid (t :: rest) i needle =
          findIndexAux uid rest (i + 1) (i : Int) := by
        simp [findIndexAux, ht]
      rw [hstep]
      rcases findIndexAux_spec uid rest (i + 1) (i : Int) with h | ⟨k, _, heq, _⟩
      · rw [h]; simp
      · rw [heq]; push_cast; omega
    | succ k =>
      simp only [List.get?_cons_succ] at hget
      have := ih (i + 1) (if t.userID = uid then (i : Int) else needle) k s hget hm
      have hstep : findIndexAux uid (t :: rest) i needle =
          findIndexAux uid rest (i + 1) (if t.userID = uid then (i : Int) else needle) := by
        simp [findIndexAux]
      rw [hstep]
      calc ((i + (k + 1) : Nat) : Int) = (((i + 1) + k : Nat) : Int) := by push_cast; omega
        _ ≤ _ := this

/-- Full characterisation of `findIndexForStreamer`: it is `-1` or the last
index whose stream matches the user id. -/
lemma findIndexForStreamer_spec (uid : String) (l : List TwitchStream) :
    findIndexForStreamer uid l = -1 ∨
    ∃ k : Nat, findIndexForStreamer uid l = (k : Int) ∧ k < l.length ∧
      (∃ s, l.get? k = some s ∧ s.userID = uid) ∧
      ∀ j s2, l.get? j = some s2 → s2.userID = uid → j ≤ k := by
  rcases findIndexAux_spec uid l 0 (-1) with h | ⟨k, hk, heq, s, hget, hm⟩
  · left; exact h
  · right
    refine ⟨k, by simpa using heq, hk, ⟨s, hget, hm⟩, ?_⟩
    intro j s2 hget2 hm2
    have hge := findIndexAux_ge uid l 0 (-1) j s2 hget2 hm2
    have heq2 : findIndexAux uid l 0 (-1) = ((k : Nat) : Int) := by simpa using heq
    rw [heq2] at hge
    omega

lemma findIndexForStreamer_found (uid : String) (l : List TwitchStream)
    (h : findIndexForStreamer uid l ≠ -1) :
    ∃ k : Nat, findIndexForStreamer uid l = (k : Int) ∧ k < l.length := by
  rcases findIndexForStreamer_spec uid l with hc | ⟨k, heq, hk, _⟩
  · exact absurd hc h
  · exact ⟨k, heq, hk⟩

/-! ### Helper lemmas about history pushes -/

lemma push_nodup {α : Type} [DecidableEq α] (hist : List α) (c : α)
    (h : hist.Nodup) : (c :: hist.filter (fun x => x ≠ c)).Nodup := by
  refine List.nodup_cons.mpr ⟨?_, h.filter _⟩
  intro hc
  rcases List.mem_filter.mp hc with ⟨-, hdec⟩
  simp at hdec

lemma foldl_saveRecentStream_nodup :
    ∀ (ops : List Nat) (acc : List Nat), acc.Nodup →
      (ops.foldl saveRecentStream acc).Nodup := by
  intro ops
  induction ops with
  | nil => intro acc h; exact h
  | cons c rest ih =>
    intro acc h
    exact ih _ (push_nodup acc c h)

lemma foldl_saveUsers_nodup :
    ∀ (ops : List String) (acc : List String), acc.Nodup →
      (ops.foldl SaveUsersCurrentStream acc).Nodup := by
  intro ops
  induction ops with
  | nil => intro acc h; exact h
  | cons c rest ih =>
    intro acc h
    exact ih _ (push_nodup acc c h)

/-! ### Claim theorems -/

/-- C3: with a single-entry history `[A]`, `Previous` fails as exhausted in
both implementations — the providers Twitch `FindStreamForCommand` pops the
lone entry and errors (leaving an empty history, so repeated calls keep
failing, as the second conjunct shows), and `MixerClient.Previous` rejects any
history of length at most one up front — and channel `A` is never returned,
whatever the live-channel list contains. -/
theorem previous_single_entry_exhausts (a : String) (live : List TwitchStream)
    (cid : Nat) (fetch : Nat → Option MixerChannel) :
    Providers.FindStreamForCommand [a] live .PREVIOUS =
      (.err Providers.noPrevMsg, []) ∧
    Providers.FindStreamForCommand [] live .PREVIOUS =
      (.err Providers.noPrevMsg, []) ∧
    MixerClient.Previous fetch [cid] =
      ⟨.error "There are no recent streams to be played", [cid]⟩ :=
  ⟨rfl, rfl, rfl⟩

/-- C2 (code bug): `MixerClient.Resume` with history `[42]` and channel `42`
among the followed live channels selects channel `42` (it is pushed back as
the history head) but then returns a nil stream together with a nil error,
contradicting the claim and the function's own documentation. -/
theorem mixer_resume_returns_nil_stream :
    MixerClient.Resume [⟨42, true, 7, "T", "N"⟩] [42] =
      ⟨.ok none, [42]⟩ :=
  rfl

/-- C5 counterexample: on an empty rendition set the Mixer selection does not
fail — `FindStreamWithChannel` returns the nil variant from `findBestVariant`
together with a nil error, so the operation succeeds. -/
theorem mixer_empty_variants_no_error :
    FindStreamWithChannelSelect [] "audio-only" = .ok none :=
  rfl

/-- C5 amended: for an empty rendition set the Twitch `GetStream` path fails
hard with the `Zero stream variants found` error and neither implementation
produces a variant, but the Mixer `findBestVariant`/`FindStreamWithChannel`
path returns the absent variant with a nil error instead of failing. -/
theorem empty_variants_selection (streamQuality : String) :
    GetStreamSelect [] streamQuality = .error "Zero stream variants found" ∧
    findBestVariant [] streamQuality = none ∧
    FindStreamWithChannelSelect [] streamQuality = .ok none :=
  ⟨rfl, rfl, rfl⟩

/-- C6 counterexample: the providers Twitch `FindStreamForCommand` with an
empty history and the `RESUME` command does not fail — it selects
`liveStreams[0]`. -/
theorem resume_empty_history_selects_first :
    Providers.FindStreamForCommand [] [⟨"1", "X", "tX"⟩] .RESUME =
      (.ok ⟨"1", "X", "tX"⟩, []) :=
  rfl

/-- C6 amended: `Resume` with an empty (or expired) history fails with the
no-recent-streams error in the Mixer implementation, while the Twitch
`FindStreamForCommand` of both generations instead behaves like `Play` and
selects `liveStreams[0]` (the older variant without recording any speech). -/
theorem resume_empty_history_split (follows : List MixerChannel)
    (s : TwitchStream) (rest : List TwitchStream) :
    MixerClient.Resume follows [] =
      ⟨.error "You have no recently listened streams to resume", []⟩ ∧
    Providers.FindStreamForCommand [] (s :: rest) .RESUME = (.ok s, []) ∧
    TwitchPkg.FindStreamForCommand [] (s :: rest) .RESUME =
      ((.ok s, none), []) := by
  refine ⟨rfl, ?_, ?_⟩
  · show (getAt (s :: rest) 0, ([] : List String)) = (.ok s, [])
    rw [getAt_zero_cons]
  · show ((getAt (s :: rest) 0, none), ([] : List String)) = ((.ok s, none), [])
    rw [getAt_zero_cons]

/-- C7: pushes never create duplicates — any sequence of pushes starting from
the lazily-created empty list yields a duplicate-free history (for the Mixer
`saveRecentStream` and the Twitch `SaveUsersCurrentStream` alike), and a push
puts the id at the head exactly once while leaving the multiplicity of every
other id unchanged (so pushing an id already present moves it to the front
rather than duplicating it). -/
theorem push_dedups :
    (∀ ops : List Nat, (ops.foldl saveRecentStream []).Nodup) ∧
    (∀ (hist : List Nat) (c : Nat),
      (saveRecentStream hist c).head? = some c ∧
      (saveRecentStream hist c).count c = 1 ∧
      ∀ d, d ≠ c → (saveRecentStream hist c).count d = hist.count d) ∧
    (∀ ops : List String, (ops.foldl SaveUsersCurrentStream []).Nodup) := by
  refine ⟨fun ops => foldl_saveRecentStream_nodup ops [] List.nodup_nil,
    fun hist c => ⟨rfl, ?_, ?_⟩,
    fun ops => foldl_saveUsers_nodup ops [] List.nodup_nil⟩
  · have hnot : c ∉ hist.filter (fun x => x ≠ c) := by
      intro hc
      rcases List.mem_filter.mp hc with ⟨-, hdec⟩
      simp at hdec
    have h0 := List.count_eq_zero.mpr hnot
    show (c :: hist.filter (fun x => x ≠ c)).count c = 1
    rw [List.count_cons_self, h0]
  · intro d hd
    have hcount : (hist.filter (fun x => x ≠ c)).count d = hist.count d :=
      List.count_filter (by simpa using hd)
    show (c :: hist.filter (fun x => x ≠ c)).count d = hist.count d
    rw [List.count_cons_of_ne hd, hcount]

/-- C7 witness: concrete instances of the dedup theorem. -/
theorem push_dedups_witness :
    (([1, 2, 1] : List Nat).foldl saveRecentStream []).Nodup ∧
    (saveRecentStream [2, 1] 1).count 2 = ([2, 1] : List Nat).count 2 :=
  ⟨push_dedups.1 [1, 2, 1], (push_dedups.2.1 [2, 1] 1).2.2 2 (by decide)⟩

/-- C9: the push transaction always ends with `EXPIRE` to the full 24-hour
window, so the entry's remaining TTL after any push is exactly 86400 seconds
no matter what it was before — in both the Mixer and the Twitch store. -/
theorem push_refreshes_ttl (entryN : RedisEntry Nat) (c : Nat)
    (entryS : RedisEntry String) (u : String) :
    (saveRecentStreamEntry entryN c).ttl = 86400 ∧
    (SaveUsersCurrentStreamEntry entryS u).ttl = 86400 ∧
    expireSeconds = 24 * 60 * 60 :=
  ⟨rfl, rfl, rfl⟩

/-! ### Reduction lemmas for the `NEXT` path -/

lemma providers_next_found (h : String) (restH : List String)
    (live : List TwitchStream) (hne : h ≠ "")
    (hfound : findIndexForStreamer h live ≠ -1) :
    Providers.FindStreamForCommand (h :: restH) live .NEXT =
      (if findIndexForStreamer h live ≤ (live.length : Int) - 2 then
        (getAt live (findIndexForStreamer h live + 1), h :: restH)
      else (getAt live 0, h :: restH)) := by
  simp [Providers.FindStreamForCommand, getCurrentStreamUserID, hne, hfound]

lemma twitchpkg_next_found (h : String) (restH : List String)
    (live : List TwitchStream) (hne : h ≠ "")
    (hfound : findIndexForStreamer h live ≠ -1) :
    TwitchPkg.FindStreamForCommand (h :: restH) live .NEXT =
      (if findIndexForStreamer h live ≤ (live.length : Int) - 2 then
        ((getAt live (findIndexForStreamer h live + 1), none), h :: restH)
      else ((getAt live 0, none), h :: restH)) := by
  simp [TwitchPkg.FindStreamForCommand, getCurrentStreamUserID, hne, hfound]

lemma nextScanAux_none (sorted : List MixerChannel) (current : Nat) :
    ∀ (l : List MixerChannel) (i : Nat) (acc : Option MixerChannel),
      (∀ ch ∈ l, ch.id ≠ current) →
      MixerClient.nextScanAux sorted current l i acc = acc := by
  intro l
  induction l with
  | nil => intro i acc _; rfl
  | cons c rest ih =>
    intro i acc hall
    have hc : c.id ≠ current := hall c (by simp)
    have hstep : MixerClient.nextScanAux sorted current (c :: rest) i acc =
        MixerClient.nextScanAux sorted current rest (i + 1) acc := by
      simp [MixerClient.nextScanAux, hc]
    rw [hstep]
    exact ih (i + 1) acc (fun ch hch => hall ch (by simp [hch]))

lemma mixer_next_not_found (channels : List MixerChannel) (cid : Nat)
    (restN : List Nat) (randIdx : Nat) (hcne : channels ≠ [])
    (hnotin : ∀ ch ∈ channels, ch.id ≠ cid) :
    ∃ ch, (MixerClient.Next channels (cid :: restN) randIdx).result =
      .ok (some ch) ∧ ch ∈ channels := by
  have hlz : ¬((channels.mergeSort (fun a b => a.id ≤ b.id)).length = 0) := by
    rw [List.length_mergeSort]
    simpa using hcne
  have hall : ∀ ch ∈ channels.mergeSort (fun a b => a.id ≤ b.id), ch.id ≠ cid :=
    fun ch hch => hnotin ch (List.mem_mergeSort.mp hch)
  have hscan := nextScanAux_none (channels.mergeSort (fun a b => a.id ≤ b.id))
    cid (channels.mergeSort (fun a b => a.id ≤ b.id)) 0 none hall
  refine ⟨(channels.mergeSort (fun a b => a.id ≤ b.id)).get
    ⟨randIdx % (channels.mergeSort (fun a b => a.id ≤ b.id)).length,
      Nat.mod_lt _ (Nat.pos_of_ne_zero hlz)⟩, ?_,
    List.mem_mergeSort.mp (List.get_mem _ _ _)⟩
  simp [MixerClient.Next, hlz, hcne, hscan]

/-- C1 counterexample: in the older twitch-package `FindStreamForCommand`, a
`NEXT` with history head `"A"` absent from the live list does not fail — the
`not streaming` speech is recorded but `liveStreams[0]` is still returned. -/
theorem next_head_not_live_still_returns_stream :
    TwitchPkg.FindStreamForCommand ["A"] [⟨"1", "X", "tX"⟩] .NEXT =
      ((.ok ⟨"1", "X", "tX"⟩, some Providers.thatUserNotStreamingMsg), ["A"]) :=
  rfl

/-- C1 amended: when the history head is non-empty and absent from the live
list, `NEXT` in the providers implementation fails with the `not streaming`
error and returns no stream; the older twitch-package variant instead records
that message as speech and still returns `liveStreams[0]`; and
`MixerClient.Next`, whose head likewise matches no live channel, selects the
randomly indexed live channel and returns it with a nil error instead of
failing. -/
theorem next_head_not_live (hist : List String) (live : List TwitchStream)
    (h : String) (restH : List String) (hh : hist = h :: restH) (hne : h ≠ "")
    (hnf : findIndexForStreamer h live = -1) :
    Providers.FindStreamForCommand hist live .NEXT =
      (.err Providers.thatUserNotStreamingMsg, hist) ∧
    (∀ s restL, live = s :: restL →
      TwitchPkg.FindStreamForCommand hist live .NEXT =
        ((.ok s, some Providers.thatUserNotStreamingMsg), hist)) ∧
    (∀ (channels : List MixerChannel) (cid : Nat) (restN : List Nat)
        (randIdx : Nat), channels ≠ [] → (∀ ch ∈ channels, ch.id ≠ cid) →
      ∃ ch, (MixerClient.Next channels (cid :: restN) randIdx).result =
        .ok (some ch) ∧ ch ∈ channels) := by
  subst hh
  refine ⟨?_, ?_, ?_⟩
  · simp [Providers.FindStreamForCommand, getCurrentStreamUserID, hne, hnf]
  · intro s restL hl
    subst hl
    simp [TwitchPkg.FindStreamForCommand, getCurrentStreamUserID, hne, hnf,
      getAt_zero_cons]
  · intro channels cid restN randIdx hcne hnotin
    exact mixer_next_not_found channels cid restN randIdx hcne hnotin

/-- C1 witness: the amended theorem applied at concrete inputs, in particular
a Mixer history head `99` absent from the single live channel `42`. -/
theorem next_head_not_live_witness :
    Providers.FindStreamForCommand ["A"] [⟨"1", "X", "tX"⟩] .NEXT =
      (.err Providers.thatUserNotStreamingMsg, ["A"]) ∧
    TwitchPkg.FindStreamForCommand ["A"] [⟨"1", "X", "tX"⟩] .NEXT =
      ((.ok ⟨"1", "X", "tX"⟩, some Providers.thatUserNotStreamingMsg), ["A"]) ∧
    ∃ ch, (MixerClient.Next [⟨42, true, 7, "T", "N"⟩] [99] 0).result =
      .ok (some ch) ∧ ch ∈ ([⟨42, true, 7, "T", "N"⟩] : List MixerChannel) := by
  have happ := next_head_not_live ["A"] [⟨"1", "X", "tX"⟩] "A" [] rfl
    (by decide) (by decide)
  exact ⟨happ.1, happ.2.1 _ _ rfl,
    happ.2.2 [⟨42, true, 7, "T", "N"⟩] 99 [] 0 (by decide) (by decide)⟩

/-- C8: for `NEXT` with a non-empty head found in the live list (at the last
matching index `k`), the element immediately after position `k` is selected
when `k` is not the last position, and the selection wraps to
`liveStreams[0]` when `k` is the last position — in the providers and the
older twitch-package implementations alike. -/
theorem next_advance_and_wrap (h : String) (restH : List String)
    (live : List TwitchStream) (hne : h ≠ "") (k : Nat)
    (hk : findIndexForStreamer h live = (k : Int)) :
    (k + 1 < live.length →
      ∃ s, live.get? (k + 1) = some s ∧
        Providers.FindStreamForCommand (h :: restH) live .NEXT =
          (.ok s, h :: restH) ∧
        TwitchPkg.FindStreamForCommand (h :: restH) live .NEXT =
          ((.ok s, none), h :: restH)) ∧
    (k + 1 = live.length →
      ∃ s, live.get? 0 = some s ∧
        Providers.FindStreamForCommand (h :: restH) live .NEXT =
          (.ok s, h :: restH) ∧
        TwitchPkg.FindStreamForCommand (h :: restH) live .NEXT =
          ((.ok s, none), h :: restH)) := by
  have hfound : findIndexForStreamer h live ≠ -1 := by rw [hk]; omega
  constructor
  · intro hlt
    have hcond : findIndexForStreamer h live ≤ (live.length : Int) - 2 := by
      rw [hk]; omega
    have h0 : (0 : Int) ≤ findIndexForStreamer h live + 1 := by rw [hk]; omega
    have htn : (findIndexForStreamer h live + 1).toNat = k + 1 := by rw [hk]; omega
    have hb : (findIndexForStreamer h live + 1).toNat < live.length := by
      rw [htn]; exact hlt
    have hfin : (⟨(findIndexForStreamer h live + 1).toNat, hb⟩ : Fin live.length) =
        ⟨k + 1, hlt⟩ := Fin.ext htn
    refine ⟨live.get ⟨k + 1, hlt⟩, List.get?_eq_get hlt, ?_, ?_⟩
    · rw [providers_next_found h restH live hne hfound, if_pos hcond,
        getAt_eq_ok live _ h0 hb, hfin]
    · rw [twitchpkg_next_found h restH live hne hfound, if_pos hcond,
        getAt_eq_ok live _ h0 hb, hfin]
  · intro heq
    have hcond : ¬(findIndexForStreamer h live ≤ (live.length : Int) - 2) := by
      rw [hk]; omega
    have hlen : 0 < live.length := by omega
    have hb0 : (0 : Int).toNat < live.length := by simpa using hlen
    have hfin : (⟨(0 : Int).toNat, hb0⟩ : Fin live.length) = ⟨0, hlen⟩ :=
      Fin.ext (by simp)
    refine ⟨live.get ⟨0, hlen⟩, List.get?_eq_get hlen, ?_, ?_⟩
    · rw [providers_next_found h restH live hne hfound, if_neg hcond,
        getAt_eq_ok live 0 le_rfl hb0, hfin]
    · rw [twitchpkg_next_found h restH live hne hfound, if_neg hcond,
        getAt_eq_ok live 0 le_rfl hb0, hfin]

/-- C8 witness: live channels `[X, Y, Z]` with current head `Z` wrap to `X`. -/
theorem next_advance_and_wrap_witness :
    ∃ s, ([⟨"1", "X", "tX"⟩, ⟨"2", "Y", "tY"⟩, ⟨"3", "Z", "tZ"⟩] :
        List TwitchStream).get? 0 = some s ∧
      Providers.FindStreamForCommand ["Z"]
        [⟨"1", "X", "tX"⟩, ⟨"2", "Y", "tY"⟩, ⟨"3", "Z", "tZ"⟩] .NEXT =
          (.ok s, ["Z"]) ∧
      TwitchPkg.FindStreamForCommand ["Z"]
        [⟨"1", "X", "tX"⟩, ⟨"2", "Y", "tY"⟩, ⟨"3", "Z", "tZ"⟩] .NEXT =
          ((.ok s, none), ["Z"]) :=
  (next_advance_and_wrap "Z" []
    [⟨"1", "X", "tX"⟩, ⟨"2", "Y", "tY"⟩, ⟨"3", "Z", "tZ"⟩]
    (by decide) 2 (by decide)).2 (by decide)

/-! ### Variant-selector lemmas -/

/-- Specification-side helper: the last `"audio_only"` rendition of the list,
with `acc` as the value carried in from earlier iterations. -/
def lastAudio : List Variant → Option Variant → Option Variant
  | [], acc => acc
  | v :: rest, acc => lastAudio rest (if v.video = "audio_only" then some v else acc)

lemma selectLoop_find_some (q : String) :
    ∀ (l : List Variant) (acc : Option Variant) (v : Variant),
      l.find? (fun u => strStartsWith u.video q) = some v →
      (selectLoop q l acc).1 = some v := by
  intro l
  induction l with
  | nil => intro acc v h; simp at h
  | cons u rest ih =>
    intro acc v h
    rw [List.find?_cons] at h
    cases hp : strStartsWith u.video q with
    | true =>
      rw [hp] at h
      cases h
      simp [selectLoop, hp]
    | false =>
      rw [hp] at h
      simpa [selectLoop, hp] using ih _ v h

lemma selectLoop_find_none (q : String) :
    ∀ (l : List Variant) (acc : Option Variant),
      l.find? (fun u => strStartsWith u.video q) = none →
      selectLoop q l acc = (none, lastAudio l acc) := by
  intro l
  induction l with
  | nil => intro acc _; rfl
  | cons u rest ih =>
    intro acc h
    rw [List.find?_cons] at h
    cases hp : strStartsWith u.video q with
    | true => rw [hp] at h; cases h
    | false =>
      rw [hp] at h
      simpa [selectLoop, hp, lastAudio] using ih _ h

lemma lastAudio_none_of :
    ∀ (l : List Variant) (acc : Option Variant),
      (∀ v ∈ l, v.video ≠ "audio_only") → lastAudio l acc = acc := by
  intro l
  induction l with
  | nil => intro acc _; rfl
  | cons u rest ih =>
    intro acc hall
    have hu : u.video ≠ "audio_only" := hall u (by simp)
    have := ih acc (fun v hv => hall v (by simp [hv]))
    simpa [lastAudio, hu] using this

lemma lastAudio_some_of :
    ∀ (l : List Variant) (acc : Option Variant),
      (∃ a ∈ l, a.video = "audio_only") →
      ∃ a, lastAudio l acc = some a ∧ a ∈ l ∧ a.video = "audio_only" := by
  intro l
  induction l with
  | nil => intro acc h; simp at h
  | cons u rest ih =>
    intro acc hex
    by_cases hrest : ∃ a ∈ rest, a.video = "audio_only"
    · obtain ⟨a, hla, hmem, haud⟩ := ih _ hrest
      exact ⟨a, by simpa [lastAudio] using hla, by simp [hmem], haud⟩
    · have hu : u.video = "audio_only" := by
        rcases hex with ⟨a, hmem, haud⟩
        rcases List.mem_cons.mp hmem with rfl | hmem2
        · exact haud
        · exact absurd ⟨a, hmem2, haud⟩ hrest
      have hnone : ∀ v ∈ rest, v.video ≠ "audio_only" := by
        intro v hv hc
        exact hrest ⟨v, hv, hc⟩
      refine ⟨u, ?_, by simp, hu⟩
      have := lastAudio_none_of rest (some u) hnone
      simpa [lastAudio, hu] using this

/-- C4: on a non-empty rendition set, the selector yields the first rendition
whose quality label has the requested token as a prefix; failing that, an
`"audio_only"` rendition from the set when one exists; failing both, the last
rendition of the set. -/
theorem variant_selection (variants : List Variant) (streamQuality : String)
    (hne : variants ≠ []) :
    (∀ v, variants.find? (fun u => strStartsWith u.video streamQuality) = some v →
      findBestVariant variants streamQuality = some v) ∧
    (variants.find? (fun u => strStartsWith u.video streamQuality) = none →
      ((∃ a ∈ variants, a.video = "audio_only") →
        ∃ a, findBestVariant variants streamQuality = some a ∧ a ∈ variants ∧
          a.video = "audio_only") ∧
      ((∀ v ∈ variants, v.video ≠ "audio_only") →
        findBestVariant variants streamQuality = variants.getLast?)) := by
  obtain ⟨v, vs, rfl⟩ : ∃ v vs, variants = v :: vs := by
    cases variants with
    | nil => exact absurd rfl hne
    | cons v vs => exact ⟨v, vs, rfl⟩
  constructor
  · intro w hw
    have h1 := selectLoop_find_some streamQuality (v :: vs) none w hw
    rcases hsl : selectLoop streamQuality (v :: vs) none with ⟨p1, p2⟩
    rw [hsl] at h1
    simp only at h1
    simp [findBestVariant, hsl, h1]
  · intro hnone
    have hsl := selectLoop_find_none streamQuality (v :: vs) none hnone
    constructor
    · intro hex
      obtain ⟨a, hla, hmem, haud⟩ := lastAudio_some_of (v :: vs) none hex
      exact ⟨a, by simp [findBestVariant, hsl, hla], hmem, haud⟩
    · intro hall
      have hla := lastAudio_none_of (v :: vs) none hall
      rw [List.getLast?_eq_getLast (v :: vs) (List.cons_ne_nil v vs)]
      simp [findBestVariant, hsl, hla]

/-- C4 witness: renditions `[(1080p, u1), (audio_only, u2)]` with requested
quality `720p` select the audio-only fallback. -/
theorem variant_selection_witness :
    ∃ a, findBestVariant [⟨"1080p", "u1"⟩, ⟨"audio_only", "u2"⟩] "720p" = some a ∧
      a ∈ ([⟨"1080p", "u1"⟩, ⟨"audio_only", "u2"⟩] : List Variant) ∧
      a.video = "audio_only" :=
  ((variant_selection [⟨"1080p", "u1"⟩, ⟨"audio_only", "u2"⟩] "720p"
      (by decide)).2 (by decide)).1 ⟨⟨"audio_only", "u2"⟩, by decide, rfl⟩

/-! ### Safety of the selection routines -/

lemma previousLoop_safe (live : List TwitchStream) :
    ∀ hist : List String, (Providers.previousLoop live hist).1 ≠ .oob ∧
      ∀ s, (Providers.previousLoop live hist).1 = .ok s → s ∈ live := by
  intro hist
  induction hist with
  | nil =>
    constructor
    · simp [Providers.previousLoop]
    · intro s hs
      simp [Providers.previousLoop] at hs
  | cons a rest ih =>
    cases rest with
    | nil =>
      constructor
      · simp [Providers.previousLoop]
      · intro s hs
        simp [Providers.previousLoop] at hs
    | cons b rest2 =>
      by_cases hf : findIndexForStreamer b live = -1
      · have hred : Providers.previousLoop live (a :: b :: rest2) =
            Providers.previousLoop live (b :: rest2) := by
          simp [Providers.previousLoop, hf]
        rw [hred]
        exact ih
      · obtain ⟨k, hk, hklen⟩ := findIndexForStreamer_found b live hf
        have h0 : (0 : Int) ≤ findIndexForStreamer b live := by omega
        have htn : (findIndexForStreamer b live).toNat < live.length := by omega
        have hred : (Providers.previousLoop live (a :: b :: rest2)).1 =
            getAt live (findIndexForStreamer b live) := by
          simp [Providers.previousLoop, hf]
        rw [hred]
        exact ⟨getAt_ne_oob live _ h0 htn, fun s hs => getAt_ok_mem _ _ _ hs⟩

lemma twitchpkg_previousLoop_safe (live : List TwitchStream) (hne : live ≠ []) :
    ∀ hist : List String, (TwitchPkg.previousLoop live hist).1.1 ≠ .oob ∧
      ∀ s, (TwitchPkg.previousLoop live hist).1.1 = .ok s → s ∈ live := by
  have hlen : 0 < live.length := List.length_pos.mpr hne
  have hz0 : getAt live 0 ≠ .oob := getAt_ne_oob live 0 le_rfl (by simpa using hlen)
  have hzm : ∀ s, getAt live 0 = .ok s → s ∈ live :=
    fun s h => getAt_ok_mem live 0 s h
  intro hist
  induction hist with
  | nil =>
    constructor
    · simpa [TwitchPkg.previousLoop] using hz0
    · intro s hs
      refine hzm s ?_
      simpa [TwitchPkg.previousLoop] using hs
  | cons a rest ih =>
    cases rest with
    | nil =>
      constructor
      · simpa [TwitchPkg.previousLoop] using hz0
      · intro s hs
        refine hzm s ?_
        simpa [TwitchPkg.previousLoop] using hs
    | cons b rest2 =>
      by_cases hf : findIndexForStreamer b live = -1
      · have hred : TwitchPkg.previousLoop live (a :: b :: rest2) =
            TwitchPkg.previousLoop live (b :: rest2) := by
          simp [TwitchPkg.previousLoop, hf]
        rw [hred]
        exact ih
      · obtain ⟨k, hk, hklen⟩ := findIndexForStreamer_found b live hf
        have h0 : (0 : Int) ≤ findIndexForStreamer b live := by omega
        have htn : (findIndexForStreamer b live).toNat < live.length := by omega
        have hred : (TwitchPkg.previousLoop live (a :: b :: rest2)).1.1 =
            getAt live (findIndexForStreamer b live) := by
          simp [TwitchPkg.previousLoop, hf]
        rw [hred]
        exact ⟨getAt_ne_oob live _ h0 htn, fun s hs => getAt_ok_mem _ _ _ hs⟩

lemma providers_result_safe (hist : List String) (live : List TwitchStream)
    (command : PlaybackCommand) (hne : live ≠ []) :
    (Providers.FindStreamForCommand hist live command).1 ≠ .oob ∧
    ∀ s, (Providers.FindStreamForCommand hist live command).1 = .ok s →
      s ∈ live := by
  have hlen : 0 < live.length := List.length_pos.mpr hne
  have hz0 : getAt live 0 ≠ .oob := getAt_ne_oob live 0 le_rfl (by simpa using hlen)
  have hzm : ∀ s, getAt live 0 = .ok s → s ∈ live :=
    fun s h => getAt_ok_mem live 0 s h
  cases command with
  | PLAY => exact ⟨hz0, hzm⟩
  | PAUSE => exact ⟨hz0, hzm⟩
  | STOP => exact ⟨hz0, hzm⟩
  | PREVIOUS => exact previousLoop_safe live hist
  | RESUME =>
    by_cases hu : getCurrentStreamUserID hist = ""
    · have hred : (Providers.FindStreamForCommand hist live .RESUME).1 =
          getAt live 0 := by
        simp [Providers.FindStreamForCommand, hu]
      rw [hred]
      exact ⟨hz0, hzm⟩
    · by_cases hf : findIndexForStreamer (getCurrentStreamUserID hist) live = -1
      · have hred : (Providers.FindStreamForCommand hist live .RESUME).1 =
            .err Providers.thatUserNotStreamingMsg := by
          simp [Providers.FindStreamForCommand, hu, hf]
        rw [hred]
        constructor
        · intro hc; cases hc
        · intro s hs; cases hs
      · obtain ⟨k, hk, hklen⟩ :=
          findIndexForStreamer_found (getCurrentStreamUserID hist) live hf
        have h0 : (0 : Int) ≤ findIndexForStreamer (getCurrentStreamUserID hist) live := by
          omega
        have htn : (findIndexForStreamer (getCurrentStreamUserID hist) live).toNat <
            live.length := by omega
        have hred : (Providers.FindStreamForCommand hist live .RESUME).1 =
            getAt live (findIndexForStreamer (getCurrentStreamUserID hist) live) := by
          simp [Providers.FindStreamForCommand, hu, hf]
        rw [hred]
        exact ⟨getAt_ne_oob live _ h0 htn, fun s hs => getAt_ok_mem _ _ _ hs⟩
  | NEXT =>
    by_cases hu : getCurrentStreamUserID hist = ""
    · have hred : (Providers.FindStreamForCommand hist live .NEXT).1 =
          getAt live 0 := by
        simp [Providers.FindStreamForCommand, hu]
      rw [hred]
      exact ⟨hz0, hzm⟩
    · by_cases hf : findIndexForStreamer (getCurrentStreamUserID hist) live = -1
      · have hred : (Providers.FindStreamForCommand hist live .NEXT).1 =
            .err Providers.thatUserNotStreamingMsg := by
          simp [Providers.FindStreamForCommand, hu, hf]
        rw [hred]
        constructor
        · intro hc; cases hc
        · intro s hs; cases hs
      · obtain ⟨k, hk, hklen⟩ :=
          findIndexForStreamer_found (getCurrentStreamUserID hist) live hf
        by_cases hcond : findIndexForStreamer (getCurrentStreamUserID hist) live ≤
            (live.length : Int) - 2
        · have h0 : (0 : Int) ≤
              findIndexForStreamer (getCurrentStreamUserID hist) live + 1 := by omega
          have htn : (findIndexForStreamer (getCurrentStreamUserID hist) live + 1).toNat <
              live.length := by omega
          have hred : (Providers.FindStreamForCommand hist live .NEXT).1 =
              getAt live (findIndexForStreamer (getCurrentStreamUserID hist) live + 1) := by
            simp [Providers.FindStreamForCommand, hu, hf, hcond]
          rw [hred]
          exact ⟨getAt_ne_oob live _ h0 htn, fun s hs => getAt_ok_mem _ _ _ hs⟩
        · have hred : (Providers.FindStreamForCommand hist live .NEXT).1 =
              getAt live 0 := by
            simp [Providers.FindStreamForCommand, hu, hf, hcond]
          rw [hred]
          exact ⟨hz0, hzm⟩

lemma twitchpkg_result_safe (hist : List String) (live : List TwitchStream)
    (command : PlaybackCommand) (hne : live ≠ []) :
    (TwitchPkg.FindStreamForCommand hist live command).1.1 ≠ .oob ∧
    ∀ s, (TwitchPkg.FindStreamForCommand hist live command).1.1 = .ok s →
      s ∈ live := by
  have hlen : 0 < live.length := List.length_pos.mpr hne
  have hz0 : getAt live 0 ≠ .oob := getAt_ne_oob live 0 le_rfl (by simpa using hlen)
  have hzm : ∀ s, getAt live 0 = .ok s → s ∈ live :=
    fun s h => getAt_ok_mem live 0 s h
  cases command with
  | PLAY => exact ⟨hz0, hzm⟩
  | PAUSE => exact ⟨hz0, hzm⟩
  | STOP => exact ⟨hz0, hzm⟩
  | PREVIOUS => exact twitchpkg_previousLoop_safe live hne hist
  | RESUME =>
    by_cases hu : getCurrentStreamUserID hist = ""
    · have hred : (TwitchPkg.FindStreamForCommand hist live .RESUME).1.1 =
          getAt live 0 := by
        simp [TwitchPkg.FindStreamForCommand, hu]
      rw [hred]
      exact ⟨hz0, hzm⟩
    · by_cases hf : findIndexForStreamer (getCurrentStreamUserID hist) live = -1
      · have hred : (TwitchPkg.FindStreamForCommand hist live .RESUME).1.1 =
            getAt live 0 := by
          simp [TwitchPkg.FindStreamForCommand, hu, hf]
        rw [hred]
        exact ⟨hz0, hzm⟩
      · obtain ⟨k, hk, hklen⟩ :=
          findIndexForStreamer_found (getCurrentStreamUserID hist) live hf
        have h0 : (0 : Int) ≤ findIndexForStreamer (getCurrentStreamUserID hist) live := by
          omega
        have htn : (findIndexForStreamer (getCurrentStreamUserID hist) live).toNat <
            live.length := by omega
        have hred : (TwitchPkg.FindStreamForCommand hist live .RESUME).1.1 =
            getAt live (findIndexForStreamer (getCurrentStreamUserID hist) live) := by
          simp [TwitchPkg.FindStreamForCommand, hu, hf]
        rw [hred]
        exact ⟨getAt_ne_oob live _ h0 htn, fun s hs => getAt_ok_mem _ _ _ hs⟩
  | NEXT =>
    by_cases hu : getCurrentStreamUserID hist = ""
    · have hred : (TwitchPkg.FindStreamForCommand hist live .NEXT).1.1 =
          getAt live 0 := by
        simp [TwitchPkg.FindStreamForCommand, hu]
      rw [hred]
      exact ⟨hz0, hzm⟩
    · by_cases hf : findIndexForStreamer (getCurrentStreamUserID hist) live = -1
      · have hred : (TwitchPkg.FindStreamForCommand hist live .NEXT).1.1 =
            getAt live 0 := by
          simp [TwitchPkg.FindStreamForCommand, hu, hf]
        rw [hred]
        exact ⟨hz0, hzm⟩
      · obtain ⟨k, hk, hklen⟩ :=
          findIndexForStreamer_found (getCurrentStreamUserID hist) live hf
        by_cases hcond : findIndexForStreamer (getCurrentStreamUserID hist) live ≤
            (live.length : Int) - 2
        · have h0 : (0 : Int) ≤
              findIndexForStreamer (getCurrentStreamUserID hist) live + 1 := by omega
          have htn : (findIndexForStreamer (getCurrentStreamUserID hist) live + 1).toNat <
              live.length := by omega
          have hred : (TwitchPkg.FindStreamForCommand hist live .NEXT).1.1 =
              getAt live (findIndexForStreamer (getCurrentStreamUserID hist) live + 1) := by
            simp [TwitchPkg.FindStreamForCommand, hu, hf, hcond]
          rw [hred]
          exact ⟨getAt_ne_oob live _ h0 htn, fun s hs => getAt_ok_mem _ _ _ hs⟩
        · have hred : (TwitchPkg.FindStreamForCommand hist live .NEXT).1.1 =
              getAt live 0 := by
            simp [TwitchPkg.FindStreamForCommand, hu, hf, hcond]
          rw [hred]
          exact ⟨hz0, hzm⟩

/-- C10: with a non-empty live list, selection is safe for every command and
history state: `findIndexForStreamer` yields `-1` or the last matching
in-bounds index, and every stream either implementation of
`FindStreamForCommand` returns is an element of the live list — the result is
never an out-of-range access. -/
theorem selection_safety (uid : String) (hist : List String)
    (live : List TwitchStream) (command : PlaybackCommand) (hne : live ≠ []) :
    (findIndexForStreamer uid live = -1 ∨
      ∃ k : Nat, findIndexForStreamer uid live = (k : Int) ∧ k < live.length ∧
        (∃ s, live.get? k = some s ∧ s.userID = uid) ∧
        ∀ j s2, live.get? j = some s2 → s2.userID = uid → j ≤ k) ∧
    ((Providers.FindStreamForCommand hist live command).1 ≠ .oob ∧
      ∀ s, (Providers.FindStreamForCommand hist live command).1 = .ok s →
        s ∈ live) ∧
    ((TwitchPkg.FindStreamForCommand hist live command).1.1 ≠ .oob ∧
      ∀ s, (TwitchPkg.FindStreamForCommand hist live command).1.1 = .ok s →
        s ∈ live) :=
  ⟨findIndexForStreamer_spec uid live,
    providers_result_safe hist live command hne,
    twitchpkg_result_safe hist live command hne⟩

/-- C10 witness: the safety theorem applied at a concrete input. -/
theorem selection_safety_witness :
    (Providers.FindStreamForCommand ["Z"] [⟨"1", "X", "tX"⟩] .NEXT).1 ≠ .oob ∧
    (TwitchPkg.FindStreamForCommand ["Z"] [⟨"1", "X", "tX"⟩] .NEXT).1.1 ≠ .oob :=
  ⟨(selection_safety "Y" ["Z"] [⟨"1", "X", "tX"⟩] .NEXT (by decide)).2.1.1,
    (selection_safety "Y" ["Z"] [⟨"1", "X", "tX"⟩] .NEXT (by decide)).2.2.1⟩

end TwitchBox
